import Mathlib

/-!
Verification of the RS485 framing and command-dispatch core of the
PIC18F16Q41 NPP-301 characterizer firmware.

The firmware's protocol core (functions `find_char`, `trim_RS485_command`,
`interpret_RS485_command` and the poll loop in `main`) is embedded shallowly:
the receive buffer is a `List Char`, C `int` indices are `Int`, reads of
`buf[i]` become `List.getD i nulChar` (the physical buffer is NUL-padded and
never read out of the scanned range), and the observable actions of a call
(bytes handed to `uart1_putstr`, calls to `set_VREF_on` / `set_VREF_off`)
are collected in an explicit `Effect` trace.  The two mutable globals that
the interpreter touches (`GREENLED` and `override_led`) form the explicit
`DevState` that is threaded through.
-/

namespace NPP301

/-- NUL, the C string terminator byte. -/
def nulChar : Char := Char.ofNat 0

/-- Identity of this node on the RS485 bus, `#define MYID 'N'`. -/
def MYID : Char := 'N'

/-- Size of the incoming UART buffer `bufA`, `#define NBUFA 80`. -/
def NBUFA : Nat := 80

/-- Size of the outgoing UART buffer `bufB`, `#define NBUFB 268`. -/
def NBUFB : Nat := 268

/-- Convenience: the character list of a string literal. -/
def strL (s : String) : List Char := s.data

/-- Version string reported by the `v` command. -/
def VERSION_STR : List Char := strL "0.1 PIC18F16Q41 NPP-301 Characterizer"

/-- Embedding of `find_char(buf, start, end, c)`: scan indices `start..end`
(inclusive, C ints); return the index of the first occurrence of `c`, or `-1`
if a NUL byte or the end of the range is reached first.  Reading past the
populated part of the buffer yields NUL (`getD` default), exactly as the
NUL-padded physical buffer does. -/
def find_char_loop (buf : List Char) (c : Char) : Nat → Int → Int → Int
  | 0, _, _ => -1
  | fuel + 1, start, fin =>
    if start ≤ fin then
      if buf.getD start.toNat nulChar = nulChar then -1
      else if buf.getD start.toNat nulChar = c then start
      else find_char_loop buf c fuel (start + 1) fin
    else -1

/-- Embedding of `find_char(buf, start, end, c)` via its iteration count:
the C loop body runs at most `end + 1 - start` times, and `find_char_loop`
carries exactly that count as structural fuel (when the fuel is 0 the loop
condition `start <= end` is false and the loop exits with `-1`, matching the
fuel-0 branch). -/
def find_char (buf : List Char) (start fin : Int) (c : Char) : Int :=
  find_char_loop buf c (fin + 1 - start).toNat start fin

/-- Embedding of `trim_RS485_command(buf, nbytes)`.  The C function returns a
pointer into the mutated buffer; what the caller (`main`) observes is the C
string at that pointer.  In the two malformed cases and the foreign-address
case that string is empty (`buf[0] = '\0'` and `&buf[0]` returned), embedded
as `none`.  In the success case the returned string is exactly the bytes
strictly between the target-id byte and the first `'!'` (the `'!'` is
overwritten with NUL, and the `'!'` scan has already checked that no NUL
occurs before it), embedded as `some` of that slice. -/
def trim_RS485_command (buf : List Char) (nbytes : Int) : Option (List Char) :=
  let start := find_char buf 0 (nbytes - 1) '/'
  if start = -1 then none
  else
    let e := find_char buf start (nbytes - 1) '!'
    if e = -1 then none
    else if buf.getD (start.toNat + 1) nulChar ≠ MYID then none
    else some ((buf.take e.toNat).drop (start.toNat + 2))

/-- Index of the first element satisfying `p`, used to phrase the
specification-side extractor. -/
def findIdxO (p : Char → Bool) : List Char → Option Nat
  | [] => none
  | c :: rest => if p c then some 0 else (findIdxO p rest).map (· + 1)

/-- Specification-side Frame Extractor, written to follow the spec's
four-step algorithm (spec §4.1): work on the effective buffer (the bytes
before the first embedded NUL, within the first `n` bytes); step 1 find the
first `'/'`, else no frame; step 2 find the first `'!'` at or after the
`'/'`, else no frame; step 3 the byte immediately after the `'/'` must equal
this node's identity, else no frame; step 4 return the bytes strictly
between the target-id byte and the `'!'`. -/
def trim_spec (buf : List Char) (n : Nat) : Option (List Char) :=
  let eff := (buf.take n).takeWhile (fun b => b ≠ nulChar)
  (findIdxO (fun b => b = '/') eff).bind (fun s =>
    (findIdxO (fun b => b = '!') (eff.drop s)).bind (fun j =>
      if eff.getD (s + 1) nulChar = MYID
      then some ((eff.take (s + j)).drop (s + 2))
      else none))

/-- State of the two mutable globals read and written by the command
interpreter: the LED output latch `GREENLED` (`LATCbits.LATC4`) and the
`uint8_t override_led` flag.  Both hold the bit values 0 or 1 that the
firmware ever assigns. -/
structure DevState where
  greenled : Nat
  override_led : Nat
deriving DecidableEq

/-- Observable actions of one interpreter call: bytes handed to
`uart1_putstr` for transmission, and calls of `set_VREF_on(level)` /
`set_VREF_off()`.  `uart1_putstr` (transport collaborator, implementation
not under src/) transmits the C string it is given. -/
inductive Effect where
  | putstr : List Char → Effect
  | vrefOn : Nat → Effect
  | vrefOff : Effect
deriving DecidableEq

/-- Strings actually transmitted on the bus: the `putstr` payloads of an
effect trace, in order. -/
def replies (effs : List Effect) : List (List Char) :=
  effs.filterMap (fun e => match e with
    | Effect.putstr s => some s
    | _ => none)

/-- Embedding of `snprintf(bufB, NBUFB, ...)` followed by
`uart1_putstr(bufB)`: `snprintf` stores at most `NBUFB - 1` characters of
the formatted text plus a terminating NUL, and `uart1_putstr` transmits the
stored C string, i.e. up to the first NUL. -/
def emit (s : List Char) : List Char :=
  (s.take (NBUFB - 1)).takeWhile (fun c => c ≠ nulChar)

/-- Embedding of C `isspace` for the character set `atoi` skips. -/
def isSpaceC (c : Char) : Bool :=
  c = ' ' ∨ c = Char.ofNat 9 ∨ c = Char.ofNat 10 ∨ c = Char.ofNat 11 ∨
  c = Char.ofNat 12 ∨ c = Char.ofNat 13

/-- Value of a maximal run of leading decimal digits, accumulator style;
yields the accumulator when the first character is not a digit. -/
def digitsValue : List Char → Nat → Nat
  | [], acc => acc
  | c :: rest, acc =>
    if c.isDigit then digitsValue rest (acc * 10 + (c.toNat - 48)) else acc

/-- Mathematical value parsed by C `atoi`: skip whitespace, accept one
optional sign, then read leading digits; 0 when there are no digits. -/
def atoiRaw (s : List Char) : Int :=
  let s1 := s.dropWhile isSpaceC
  if s1.headD nulChar = '-' then -(digitsValue (s1.drop 1) 0 : Int)
  else if s1.headD nulChar = '+' then (digitsValue (s1.drop 1) 0 : Int)
  else (digitsValue s1 0 : Int)

/-- Two's-complement wrap of a value to the 16-bit `int` of the XC8 target,
the return type of `atoi` there. -/
def toInt16 (v : Int) : Int :=
  let u := v.emod 65536
  if u < 32768 then u else u - 65536

/-- Two's-complement wrap for the `(int8_t)` cast applied to the `w`
command's on/off flag. -/
def toInt8 (v : Int) : Int :=
  let u := v.emod 256
  if u < 128 then u else u - 256

/-- Value of the `(uint8_t)` cast applied to the clamped `w` level. -/
def uint8OfInt (v : Int) : Nat := (v.emod 256).toNat

/-- Embedding of `atoi` on the 16-bit-int XC8 target. -/
def atoi (s : List Char) : Int := toInt16 (atoiRaw s)

/-- Holds when a token has no leading digits after optional whitespace and
sign, so that `atoi` yields 0 by fallback rather than by parsing "0". -/
def nonNumeric (tok : List Char) : Bool :=
  let s1 := tok.dropWhile isSpaceC
  let s2 := if s1.headD nulChar = '-' ∨ s1.headD nulChar = '+' then s1.drop 1 else s1
  !(s2.headD nulChar).isDigit

/-- Separator set of the argument tokenizer, `const char* sep_tok = ", "`. -/
def sepTok : List Char := [',', ' ']

/-- Embedding of one `strtok(s, sep)` step: skip leading separators; if
nothing is left there is no token (`strtok` returns NULL); otherwise the
token is the maximal run of non-separators and the remainder is what
follows it (the separator that `strtok` overwrites with NUL is left in the
remainder; the next `strtok` call skips leading separators anyway, so the
token sequence is unchanged). -/
def firstTok (seps : List Char) (s : List Char) : Option (List Char × List Char) :=
  let s1 := s.dropWhile (fun c => c ∈ seps)
  match s1 with
  | [] => none
  | _ => some (s1.takeWhile (fun c => ¬ c ∈ seps), s1.dropWhile (fun c => ¬ c ∈ seps))

/-- Decimal digit character, `'0' + d`. -/
def digitChar (d : Nat) : Char := Char.ofNat (48 + d)

def natDigitsFuel : Nat → Nat → List Char
  | 0, _ => []
  | fuel + 1, n =>
    if n < 10 then [digitChar n]
    else natDigitsFuel fuel (n / 10) ++ [digitChar (n % 10)]

/-- Decimal rendering of a natural number as `printf` produces for `%u`
(and for `%d` on non-negative values): most significant digit first,
produced by repeated division by 10.  The division depth is below `n + 1`,
which `natDigitsFuel` carries as structural fuel. -/
def natDigits (n : Nat) : List Char := natDigitsFuel (n + 1) n

/-- Decimal rendering of a (possibly negative) integer as `printf %d`. -/
def intDec (v : Int) : List Char :=
  if v < 0 then '-' :: natDigits (0 - v).toNat else natDigits v.toNat

/-- ADC channel selector `MY_ANC2`. -/
def MY_ANC2 : Nat := 18

/-- ADC channel selector `MY_ANC7`. -/
def MY_ANC7 : Nat := 23

/-- ADC channel selector `MY_ANB5`. -/
def MY_ANB5 : Nat := 13

/-- ADC channel selector `MY_ANB6`. -/
def MY_ANB6 : Nat := 14

/-- ADC channel selector `MY_ANB7`. -/
def MY_ANB7 : Nat := 15

/-- Embedding of `ADC_read(ain)`: the hardware sample for a channel, of C
type `uint16_t`.  The environment `adc` models the analog readings; the
reduction modulo 2^16 records the register width of `ADRES`. -/
def ADC_read (adc : Nat → Nat) (ain : Nat) : Nat := adc ain % 65536

/-- Embedding of the `switch (cmdStr[0])` body of
`interpret_RS485_command`: dispatch on the first payload byte, tokenize
arguments with `strtok`/`atoi`, update `GREENLED`/`override_led`, and
record the transmitted reply and any `set_VREF_on`/`set_VREF_off` calls.
The C `switch` compares `cmdStr[0]` against the case labels in order, which
the if-chain mirrors. -/
def interpret_core (adc : Nat → Nat) (st : DevState) (cmdStr : List Char) :
    DevState × List Effect :=
  let c0 := cmdStr.headD nulChar
  if c0 = 'v' then
    (st, [Effect.putstr (emit (strL "/0v " ++ VERSION_STR ++ strL "#\n"))])
  else if c0 = 'L' then
    match firstTok sepTok (cmdStr.drop 1) with
    | some (tok, _) =>
      let i : Nat := ((atoi tok).emod 2).toNat
      ({ greenled := i, override_led := i },
       [Effect.putstr (emit (strL "/0L " ++ natDigits i ++ strL "#\n"))])
    | none =>
      (st, [Effect.putstr (emit (strL "/0L error: no value#\n"))])
  else if c0 = 'a' then
    let pin8 := ADC_read adc MY_ANC2
    let pin2 := ADC_read adc MY_ANC7
    let pin4 := ADC_read adc MY_ANB7
    let pin5 := ADC_read adc MY_ANB6
    let pin6 := ADC_read adc MY_ANB5
    (st, [Effect.putstr (emit (strL "/0a " ++ natDigits pin8 ++ strL " " ++
      natDigits pin2 ++ strL " " ++ natDigits pin4 ++ strL " " ++
      natDigits pin5 ++ strL " " ++ natDigits pin6 ++ strL "#\n"))])
  else if c0 = 'w' then
    match firstTok sepTok (cmdStr.drop 1) with
    | some (tok, rest) =>
      let level := atoi tok
      let onOffFlag : Int :=
        match firstTok sepTok rest with
        | some (tok2, _) => toInt8 (atoi tok2)
        | none => 1
      if onOffFlag ≠ 0 then
        let level1 := if level > 255 then 255 else level
        let level2 := if level1 < 0 then 0 else level1
        (st, [Effect.vrefOn (uint8OfInt level2),
              Effect.putstr (emit (strL "/0w VREF on level=" ++ intDec level2 ++ strL "#\n"))])
      else
        (st, [Effect.vrefOff, Effect.putstr (emit (strL "/0w VREF off#\n"))])
    | none =>
      (st, [Effect.putstr (emit (strL "/0w error: missing level and on/off flag#\n"))])
  else
    (st, [Effect.putstr (emit ('/' :: '0' :: c0 :: strL " error: Unknown command#\n"))])

/-- Embedding of `interpret_RS485_command(cmdStr)`: blink the LED around
the dispatch as an activity indicator unless overridden.  The leading test
reads `override_led` before the dispatch (which may change it), the
trailing test reads it after, exactly as the C statements do. -/
def interpret_RS485_command (adc : Nat → Nat) (st : DevState) (cmdStr : List Char) :
    DevState × List Effect :=
  let st1 := if st.override_led = 0 then { st with greenled := 1 } else st
  let res := interpret_core adc st1 cmdStr
  let st3 := if res.1.override_led = 0 then { res.1 with greenled := 0 } else res.1
  (st3, res.2)

/-- Embedding of one iteration of the poll loop in `main` for a received
line (`m > 0`): trim the 80-byte buffer with `nbytes = NBUFA`, and dispatch
only when the resulting command string is non-empty (`if (*cmd)`). -/
def process_line (adc : Nat → Nat) (st : DevState) (buf : List Char) :
    DevState × List Effect :=
  match trim_RS485_command buf (NBUFA : Int) with
  | none => (st, [])
  | some [] => (st, [])
  | some cmd => interpret_RS485_command adc st cmd

/-- Device state after interpreting a sequence of command payloads starting
from the reset state (`init_pins` leaves `GREENLED = 0`, and the start-up
blink in `main` also ends with `GREENLED = 0`; `override_led` is initialized
to 0). -/
def run (adc : Nat → Nat) (cmds : List (List Char)) : DevState :=
  cmds.foldl (fun st c => (interpret_RS485_command adc st c).1)
    { greenled := 0, override_led := 0 }

/-- Response Framer of spec §4.3 as the code realizes it: every reply site
formats `"/0" ++ body ++ "#\n"` into `bufB` with `snprintf(bufB, NBUFB, ...)`
and transmits the stored C string with `uart1_putstr`. -/
def frame_reply (body : List Char) : List Char :=
  emit ('/' :: '0' :: (body ++ strL "#\n"))

/-- Holds when a transmitted string contains the literal substring
"error", the failure marker of the wire contract. -/
def hasErr (r : List Char) : Prop :=
  ∃ pre post, r = pre ++ strL "error" ++ post

section ListHelpers

variable (p : Char → Bool)

lemma length_takeWhile_le (l : List Char) : (l.takeWhile p).length ≤ l.length := by
  induction l with
  | nil => simp
  | cons c rest ih =>
    rw [List.takeWhile_cons]
    split
    · simpa using ih
    · simp

lemma takeWhile_drop :
    ∀ (l : List Char) (s : Nat), s ≤ (l.takeWhile p).length →
      (l.takeWhile p).drop s = (l.drop s).takeWhile p := by
  intro l
  induction l with
  | nil => intro s _; simp
  | cons c rest ih =>
    intro s hs
    cases s with
    | zero => simp
    | succ s' =>
      rw [List.takeWhile_cons] at hs ⊢
      by_cases hp : p c = true
      · rw [if_pos hp] at hs ⊢
        simpa using ih s' (by simpa using hs)
      · rw [if_neg hp] at hs
        simp at hs

lemma takeWhile_take :
    ∀ (l : List Char) (i : Nat), i ≤ (l.takeWhile p).length →
      (l.takeWhile p).take i = l.take i := by
  intro l
  induction l with
  | nil => intro i _; simp
  | cons c rest ih =>
    intro i hi
    cases i with
    | zero => simp
    | succ i' =>
      rw [List.takeWhile_cons] at hi ⊢
      by_cases hp : p c = true
      · rw [if_pos hp] at hi ⊢
        simp only [List.take_succ_cons]
        rw [ih i' (by simpa using hi)]
      · rw [if_neg hp] at hi
        simp at hi

lemma takeWhile_getD :
    ∀ (l : List Char) (i : Nat), i < (l.takeWhile p).length →
      (l.takeWhile p).getD i nulChar = l.getD i nulChar := by
  intro l
  induction l with
  | nil => intro i h; simp at h
  | cons c rest ih =>
    intro i hi
    rw [List.takeWhile_cons] at hi ⊢
    by_cases hp : p c = true
    · rw [if_pos hp] at hi ⊢
      cases i with
      | zero => rfl
      | succ i' =>
        have := ih i' (by simpa using hi)
        simpa [List.getD] using this
    · rw [if_neg hp] at hi
      simp at hi

lemma take_getD (l : List Char) (n i : Nat) (h : i < n) :
    (l.take n).getD i nulChar = l.getD i nulChar := by
  simp only [List.getD_eq_getElem?_getD]
  rw [List.getElem?_take_of_lt h]

end ListHelpers

lemma findIdxO_some (p : Char → Bool) :
    ∀ (l : List Char) (i : Nat), findIdxO p l = some i →
      i < l.length ∧ p (l.getD i nulChar) = true := by
  intro l
  induction l with
  | nil => intro i h; simp [findIdxO] at h
  | cons c rest ih =>
    intro i h
    rw [findIdxO] at h
    by_cases hp : p c = true
    · rw [if_pos hp] at h
      cases h
      exact ⟨by simp, by simpa using hp⟩
    · rw [if_neg hp] at h
      cases h' : findIdxO p rest with
      | none => rw [h'] at h; simp at h
      | some i' =>
        rw [h'] at h
        simp only [Option.map_some'] at h
        cases h
        obtain ⟨hi, hpi⟩ := ih i' h'
        exact ⟨by simpa using Nat.succ_lt_succ hi, by simpa [List.getD] using hpi⟩

lemma find_char_loop_eq (buf : List Char) (c : Char) :
    ∀ (m : Nat) (start fin : Int), 0 ≤ start → (fin + 1 - start).toNat = m →
      find_char_loop buf c m start fin =
        (match findIdxO (fun b => b = c)
            (((buf.drop start.toNat).take m).takeWhile (fun b => b ≠ nulChar)) with
        | some j => start + (j : Int)
        | none => -1) := by
  intro m
  induction m with
  | zero =>
    intro start fin _ hm
    simp [find_char_loop, findIdxO]
  | succ m ih =>
    intro start fin h0 hm
    have hle : start ≤ fin := by omega
    rw [find_char_loop, if_pos hle]
    by_cases hlen : start.toNat < buf.length
    · have hdrop : buf.drop start.toNat =
          buf.getD start.toNat nulChar :: buf.drop (start.toNat + 1) := by
        rw [List.getD_eq_getElem _ _ hlen]
        exact List.drop_eq_getElem_cons hlen
      rw [hdrop, List.take_succ_cons, List.takeWhile_cons]
      by_cases hbn : buf.getD start.toNat nulChar = nulChar
      · rw [if_pos hbn, if_neg (by simp only [decide_eq_true_eq, ne_eq, not_not]; exact hbn)]
        simp [findIdxO]
      · rw [if_neg hbn]
        have hdec : (decide (buf.getD start.toNat nulChar ≠ nulChar)) = true := by
          simpa using hbn
        rw [if_pos hdec, findIdxO]
        by_cases hbc : buf.getD start.toNat nulChar = c
        · rw [if_pos hbc, if_pos (by simpa using hbc)]
          simp
        · rw [if_neg hbc, if_neg (by simpa using hbc)]
          have h1 : ((start + 1).toNat) = start.toNat + 1 := by omega
          have h2 : (fin + 1 - (start + 1)).toNat = m := by omega
          rw [ih (start + 1) fin (by omega) h2, h1]
          cases hfi : findIdxO (fun b => b = c)
              (((buf.drop (start.toNat + 1)).take m).takeWhile (fun b => b ≠ nulChar)) with
          | none => simp
          | some j =>
            simp only [Option.map_some']
            show start + 1 + (j : Int) = start + ((j + 1 : Nat) : Int)
            push_cast
            ring
    · have hnil : buf.drop start.toNat = [] :=
        List.drop_eq_nil_of_le (by omega)
      have hgd : buf.getD start.toNat nulChar = nulChar :=
        List.getD_eq_default _ _ (by omega)
      rw [if_pos hgd, hnil]
      simp [findIdxO]

lemma find_char_eq (buf : List Char) (c : Char) :
    ∀ (m : Nat) (start fin : Int), 0 ≤ start → (fin + 1 - start).toNat = m →
      find_char buf start fin c =
        (match findIdxO (fun b => b = c)
            (((buf.drop start.toNat).take m).takeWhile (fun b => b ≠ nulChar)) with
        | some j => start + (j : Int)
        | none => -1) := by
  intro m start fin h0 hm
  rw [find_char, hm]
  exact find_char_loop_eq buf c m start fin h0 hm

lemma drop_getD (l : List Char) (s j : Nat) :
    (l.drop s).getD j nulChar = l.getD (s + j) nulChar := by
  simp only [List.getD_eq_getElem?_getD]
  rw [List.getElem?_drop]

lemma trim_eq_spec (buf : List Char) (n : Nat) :
    trim_RS485_command buf (n : Int) = trim_spec buf n := by
  have hfc1 := find_char_eq buf '/' n 0 ((n : Int) - 1) le_rfl (by omega)
  simp only [Int.toNat_zero, List.drop_zero, zero_add] at hfc1
  simp only [trim_RS485_command, trim_spec]
  cases hs : findIdxO (fun b => b = '/') ((buf.take n).takeWhile (fun b => b ≠ nulChar)) with
  | none =>
    have hm1 : find_char buf 0 ((n : Int) - 1) '/' = -1 := by rw [hfc1, hs]
    rw [hm1, if_pos rfl, Option.none_bind]
  | some s =>
    obtain ⟨hslen, hsval⟩ := findIdxO_some _ _ _ hs
    have hsval' : ((buf.take n).takeWhile (fun b => b ≠ nulChar)).getD s nulChar = '/' := by
      simpa using hsval
    have heffn : ((buf.take n).takeWhile (fun b => b ≠ nulChar)).length ≤ n := by
      calc ((buf.take n).takeWhile (fun b => b ≠ nulChar)).length
        ≤ (buf.take n).length := length_takeWhile_le _ _
        _ ≤ n := by simp
    have hstart : find_char buf 0 ((n : Int) - 1) '/' = (s : Int) := by
      rw [hfc1, hs]
    rw [hstart, if_neg (by omega), Option.some_bind]
    have hfc2 := find_char_eq buf '!' (n - s) (s : Int) ((n : Int) - 1)
      (by omega) (by omega)
    simp only [Int.toNat_natCast] at hfc2
    have hregion : ((buf.take n).takeWhile (fun b => b ≠ nulChar)).drop s =
        ((buf.drop s).take (n - s)).takeWhile (fun b => b ≠ nulChar) := by
      rw [takeWhile_drop _ _ s (le_of_lt hslen), List.drop_take]
    rw [← hregion] at hfc2
    cases hj : findIdxO (fun b => b = '!')
        (((buf.take n).takeWhile (fun b => b ≠ nulChar)).drop s) with
    | none =>
      have hm2 : find_char buf (s : Int) ((n : Int) - 1) '!' = -1 := by rw [hfc2, hj]
      rw [hm2, if_pos rfl, Option.none_bind]
    | some j =>
      obtain ⟨hjlen, hjval⟩ := findIdxO_some _ _ _ hj
      have hjval' : (((buf.take n).takeWhile (fun b => b ≠ nulChar)).drop s).getD j nulChar
          = '!' := by simpa using hjval
      have hj1 : 1 ≤ j := by
        rcases Nat.eq_zero_or_pos j with hj0 | hj0
        · exfalso
          rw [hj0] at hjval'
          rw [drop_getD, Nat.add_zero, hsval'] at hjval'
          exact absurd hjval' (by decide)
        · exact hj0
      have hjeff : s + j < ((buf.take n).takeWhile (fun b => b ≠ nulChar)).length := by
        rw [List.length_drop] at hjlen
        omega
      have hs1eff : s + 1 < ((buf.take n).takeWhile (fun b => b ≠ nulChar)).length := by omega
      have hend : find_char buf (s : Int) ((n : Int) - 1) '!' = ((s + j : Nat) : Int) := by
        rw [hfc2, hj]
        push_cast
        ring
      rw [hend, if_neg (by omega), Option.some_bind]
      have hcast : (((s + j : Nat) : Int)).toNat = s + j := by omega
      have hcast2 : ((s : Int)).toNat = s := by omega
      rw [hcast, hcast2]
      have htarget : buf.getD (s + 1) nulChar =
          ((buf.take n).takeWhile (fun b => b ≠ nulChar)).getD (s + 1) nulChar := by
        rw [takeWhile_getD _ _ _ hs1eff, take_getD _ _ _ (by omega)]
      rw [htarget]
      by_cases hmy : ((buf.take n).takeWhile (fun b => b ≠ nulChar)).getD (s + 1) nulChar = MYID
      · rw [if_neg (not_not_intro hmy), if_pos hmy]
        have htake : ((buf.take n).takeWhile (fun b => b ≠ nulChar)).take (s + j) =
            buf.take (s + j) := by
          rw [takeWhile_take _ _ _ (le_of_lt hjeff), List.take_take,
            Nat.min_eq_left (by omega)]
        rw [htake]
      · rw [if_pos hmy, if_neg hmy]

lemma trim_spec_no_nul (buf : List Char) (n : Nat) (p : List Char)
    (h : trim_spec buf n = some p) : ∀ ch ∈ p, ch ≠ nulChar := by
  intro ch hch
  simp only [trim_spec, Option.bind_eq_some] at h
  obtain ⟨s, _, j, _, h⟩ := h
  split at h
  · cases h
    have hmem : ch ∈ (buf.take n).takeWhile (fun b => b ≠ nulChar) :=
      List.mem_of_mem_take (List.mem_of_mem_drop hch)
    simpa using List.mem_takeWhile_imp hmem
  · exact absurd h (by simp)

lemma digitChar_ne_nul (d : Nat) (h : d < 10) : digitChar d ≠ nulChar := by
  interval_cases d <;> decide

lemma digitChar_ne_r (d : Nat) (h : d < 10) : digitChar d ≠ 'r' := by
  interval_cases d <;> decide

lemma natDigitsFuel_congr : ∀ (f1 f2 n : Nat), n < f1 → n < f2 →
    natDigitsFuel f1 n = natDigitsFuel f2 n := by
  intro f1
  induction f1 with
  | zero => intro f2 n h1 _; omega
  | succ f1 ih =>
    intro f2 n h1 h2
    cases f2 with
    | zero => omega
    | succ f2 =>
      simp only [natDigitsFuel]
      split
      · rfl
      · rename_i h10
        have hdiv : n / 10 < n := Nat.div_lt_self (by omega) (by omega)
        rw [ih f2 (n / 10) (by omega) (by omega)]

lemma natDigits_eq (n : Nat) :
    natDigits n = if n < 10 then [digitChar n]
      else natDigits (n / 10) ++ [digitChar (n % 10)] := by
  rw [natDigits, natDigits, natDigitsFuel]
  split
  · rfl
  · rename_i h10
    have hdiv : n / 10 < n := Nat.div_lt_self (by omega) (by omega)
    rw [natDigitsFuel_congr n (n / 10 + 1) (n / 10) (by omega) (by omega)]

lemma natDigits_mem (n : Nat) : ∀ c ∈ natDigits n, ∃ d, d < 10 ∧ c = digitChar d := by
  induction n using Nat.strong_induction_on with
  | _ n ih =>
    rw [natDigits_eq]
    split
    · rename_i h10
      intro c hc
      simp only [List.mem_singleton] at hc
      exact ⟨n, h10, hc⟩
    · rename_i h10
      intro c hc
      rw [List.mem_append] at hc
      rcases hc with hc | hc
      · exact ih (n / 10) (Nat.div_lt_self (by omega) (by omega)) c hc
      · simp only [List.mem_singleton] at hc
        exact ⟨n % 10, Nat.mod_lt _ (by omega), hc⟩

lemma natDigits_no_nul (n : Nat) : ∀ c ∈ natDigits n, c ≠ nulChar := by
  intro c hc
  obtain ⟨d, hd, rfl⟩ := natDigits_mem n c hc
  exact digitChar_ne_nul d hd

lemma natDigits_no_r (n : Nat) : 'r' ∉ natDigits n := by
  intro hc
  obtain ⟨d, hd, hdr⟩ := natDigits_mem n 'r' hc
  exact digitChar_ne_r d hd hdr.symm

lemma natDigits_len (k : Nat) : ∀ n, n < 10 ^ k → 1 ≤ k → (natDigits n).length ≤ k := by
  induction k with
  | zero => intro n _ h; omega
  | succ k ih =>
    intro n hn _
    rw [natDigits_eq]
    split
    · simp
    · rename_i h10
      rw [List.length_append]
      have hk : 1 ≤ k := by
        rcases Nat.eq_zero_or_pos k with hk0 | hk0
        · subst hk0
          simp at hn
          omega
        · exact hk0
      have hdiv : n / 10 < 10 ^ k := by
        rw [Nat.div_lt_iff_lt_mul (by omega)]
        calc n < 10 ^ (k + 1) := hn
          _ = 10 ^ k * 10 := by ring
      have := ih (n / 10) hdiv hk
      simp only [List.length_singleton]
      omega

lemma emit_eq (s : List Char) (h1 : s.length ≤ NBUFB - 1) (h2 : ∀ c ∈ s, c ≠ nulChar) :
    emit s = s := by
  unfold emit
  rw [List.take_of_length_le h1]
  rw [List.takeWhile_eq_self_iff.mpr]
  intro x hx
  simpa using h2 x hx

lemma emit_len (s : List Char) : (emit s).length ≤ NBUFB - 1 := by
  unfold emit
  calc ((s.take (NBUFB - 1)).takeWhile (fun c => c ≠ nulChar)).length
    ≤ (s.take (NBUFB - 1)).length := length_takeWhile_le _ _
    _ ≤ NBUFB - 1 := by simp

lemma hasErr_mem_r (r : List Char) (h : hasErr r) : 'r' ∈ r := by
  obtain ⟨pre, post, rfl⟩ := h
  refine List.mem_append.mpr (Or.inl ?_)
  refine List.mem_append.mpr (Or.inr ?_)
  decide

section CoreBranches

variable (adc : Nat → Nat) (st : DevState) (cmdStr : List Char)

lemma core_v (h : cmdStr.headD nulChar = 'v') :
    interpret_core adc st cmdStr =
      (st, [Effect.putstr (emit (strL "/0v " ++ VERSION_STR ++ strL "#\n"))]) := by
  simp only [interpret_core, h]
  rfl

lemma core_L_some (tok rest : List Char)
    (h : cmdStr.headD nulChar = 'L')
    (hT : firstTok sepTok (cmdStr.drop 1) = some (tok, rest)) :
    interpret_core adc st cmdStr =
      ({ greenled := ((atoi tok).emod 2).toNat, override_led := ((atoi tok).emod 2).toNat },
       [Effect.putstr (emit (strL "/0L " ++ natDigits ((atoi tok).emod 2).toNat ++ strL "#\n"))]) := by
  simp only [interpret_core, h, hT]
  rfl

lemma core_L_none (h : cmdStr.headD nulChar = 'L')
    (hT : firstTok sepTok (cmdStr.drop 1) = none) :
    interpret_core adc st cmdStr =
      (st, [Effect.putstr (emit (strL "/0L error: no value#\n"))]) := by
  simp only [interpret_core, h, hT]
  rfl

lemma core_a (h : cmdStr.headD nulChar = 'a') :
    interpret_core adc st cmdStr =
      (st, [Effect.putstr (emit (strL "/0a " ++ natDigits (ADC_read adc MY_ANC2) ++ strL " " ++
        natDigits (ADC_read adc MY_ANC7) ++ strL " " ++ natDigits (ADC_read adc MY_ANB7) ++
        strL " " ++ natDigits (ADC_read adc MY_ANB6) ++ strL " " ++
        natDigits (ADC_read adc MY_ANB5) ++ strL "#\n"))]) := by
  simp only [interpret_core, h]
  rfl

lemma core_w_on (tok rest : List Char)
    (h : cmdStr.headD nulChar = 'w')
    (hT : firstTok sepTok (cmdStr.drop 1) = some (tok, rest))
    (hf : (match firstTok sepTok rest with
          | some (tok2, _) => toInt8 (atoi tok2)
          | none => 1) ≠ 0) :
    interpret_core adc st cmdStr =
      (st, [Effect.vrefOn (uint8OfInt
              (if (if atoi tok > 255 then 255 else atoi tok) < 0 then 0
               else (if atoi tok > 255 then 255 else atoi tok))),
            Effect.putstr (emit (strL "/0w VREF on level=" ++
              intDec (if (if atoi tok > 255 then 255 else atoi tok) < 0 then 0
                      else (if atoi tok > 255 then 255 else atoi tok)) ++ strL "#\n"))]) := by
  simp only [interpret_core, h, hT]
  rw [if_pos hf]
  rfl

lemma core_w_off (tok rest : List Char)
    (h : cmdStr.headD nulChar = 'w')
    (hT : firstTok sepTok (cmdStr.drop 1) = some (tok, rest))
    (hf : (match firstTok sepTok rest with
          | some (tok2, _) => toInt8 (atoi tok2)
          | none => 1) = 0) :
    interpret_core adc st cmdStr =
      (st, [Effect.vrefOff, Effect.putstr (emit (strL "/0w VREF off#\n"))]) := by
  simp only [interpret_core, h, hT]
  rw [hf]
  rfl

lemma core_w_none (h : cmdStr.headD nulChar = 'w')
    (hT : firstTok sepTok (cmdStr.drop 1) = none) :
    interpret_core adc st cmdStr =
      (st, [Effect.putstr (emit (strL "/0w error: missing level and on/off flag#\n"))]) := by
  simp only [interpret_core, h, hT]
  rfl

lemma core_default (hv : cmdStr.headD nulChar ≠ 'v') (hL : cmdStr.headD nulChar ≠ 'L')
    (ha : cmdStr.headD nulChar ≠ 'a') (hw : cmdStr.headD nulChar ≠ 'w') :
    interpret_core adc st cmdStr =
      (st, [Effect.putstr (emit ('/' :: '0' :: cmdStr.headD nulChar ::
        strL " error: Unknown command#\n"))]) := by
  simp only [interpret_core]
  rw [if_neg hv, if_neg hL, if_neg ha, if_neg hw]

end CoreBranches

lemma interpret_core_fst (adc : Nat → Nat) (st : DevState) (cmdStr : List Char) :
    (interpret_core adc st cmdStr).1 = st ∨
      ∃ i : Nat, i < 2 ∧
        (interpret_core adc st cmdStr).1 = { greenled := i, override_led := i } := by
  by_cases hv : cmdStr.headD nulChar = 'v'
  · rw [core_v adc st cmdStr hv]
    exact Or.inl rfl
  · by_cases hL : cmdStr.headD nulChar = 'L'
    · cases hT : firstTok sepTok (cmdStr.drop 1) with
      | none =>
        rw [core_L_none adc st cmdStr hL hT]
        exact Or.inl rfl
      | some pr =>
        obtain ⟨tok, rest⟩ := pr
        rw [core_L_some adc st cmdStr tok rest hL hT]
        right
        refine ⟨((atoi tok).emod 2).toNat, ?_, rfl⟩
        have h1 : 0 ≤ (atoi tok).emod 2 := Int.emod_nonneg _ (by norm_num)
        have h2 : (atoi tok).emod 2 < 2 := Int.emod_lt_of_pos _ (by norm_num)
        omega
    · by_cases ha : cmdStr.headD nulChar = 'a'
      · rw [core_a adc st cmdStr ha]
        exact Or.inl rfl
      · by_cases hw : cmdStr.headD nulChar = 'w'
        · cases hT : firstTok sepTok (cmdStr.drop 1) with
          | none =>
            rw [core_w_none adc st cmdStr hw hT]
            exact Or.inl rfl
          | some pr =>
            obtain ⟨tok, rest⟩ := pr
            by_cases hf : (match firstTok sepTok rest with
                | some (tok2, _) => toInt8 (atoi tok2)
                | none => 1) = (0 : Int)
            · rw [core_w_off adc st cmdStr tok rest hw hT hf]
              exact Or.inl rfl
            · rw [core_w_on adc st cmdStr tok rest hw hT hf]
              exact Or.inl rfl
        · rw [core_default adc st cmdStr hv hL ha hw]
          exact Or.inl rfl

lemma interpret_fst_cases (adc : Nat → Nat) (st : DevState) (cmdStr : List Char) :
    (interpret_RS485_command adc st cmdStr).1 = { greenled := 0, override_led := 0 } ∨
    (interpret_RS485_command adc st cmdStr).1 = { greenled := 1, override_led := 1 } ∨
    (interpret_RS485_command adc st cmdStr).1 = st := by
  simp only [interpret_RS485_command]
  rcases interpret_core_fst adc
      (if st.override_led = 0 then { st with greenled := 1 } else st) cmdStr with
    hc | ⟨i, hi, hc⟩
  · rw [hc]
    by_cases ho : st.override_led = 0
    · rw [if_pos ho]
      left
      simp [ho]
    · rw [if_neg ho, if_neg (by simpa using ho)]
      right; right
      rfl
  · rw [hc]
    interval_cases i
    · left
      simp
    · right; left
      simp

lemma interpret_inv (adc : Nat → Nat) (st : DevState) (cmdStr : List Char)
    (h : st.greenled = st.override_led) :
    ((interpret_RS485_command adc st cmdStr).1).greenled =
      ((interpret_RS485_command adc st cmdStr).1).override_led := by
  rcases interpret_fst_cases adc st cmdStr with hc | hc | hc <;> rw [hc]
  exact h

lemma run_inv (adc : Nat → Nat) (cmds : List (List Char)) :
    (run adc cmds).greenled = (run adc cmds).override_led := by
  rw [run]
  have key : ∀ (l : List (List Char)) (st : DevState), st.greenled = st.override_led →
      ((l.foldl (fun st c => (interpret_RS485_command adc st c).1) st).greenled =
        (l.foldl (fun st c => (interpret_RS485_command adc st c).1) st).override_led) := by
    intro l
    induction l with
    | nil => intro st h; simpa using h
    | cons c cs ih =>
      intro st h
      simp only [List.foldl_cons]
      exact ih _ (interpret_inv adc st c h)
  exact key cmds { greenled := 0, override_led := 0 } rfl

lemma interpret_of_core (adc : Nat → Nat) (st : DevState) (cmdStr : List Char)
    (effs : List Effect)
    (hc : ∀ s : DevState, interpret_core adc s cmdStr = (s, effs)) :
    interpret_RS485_command adc st cmdStr =
      (if st.override_led = 0 then { st with greenled := 0 } else st, effs) := by
  simp only [interpret_RS485_command, hc]
  by_cases ho : st.override_led = 0
  · rw [if_pos ho, if_pos ho, if_pos (by simpa using ho)]
  · rw [if_neg ho, if_neg ho]

lemma interpret_of_core_state (adc : Nat → Nat) (st : DevState) (cmdStr : List Char)
    (effs : List Effect) (hinv : st.greenled = st.override_led)
    (hc : ∀ s : DevState, interpret_core adc s cmdStr = (s, effs)) :
    interpret_RS485_command adc st cmdStr = (st, effs) := by
  rw [interpret_of_core adc st cmdStr effs hc]
  by_cases ho : st.override_led = 0
  · rw [if_pos ho]
    cases st with
    | mk g o =>
      simp only at hinv ho ⊢
      subst ho
      rw [hinv]
  · rw [if_neg ho]

lemma interpret_snd (adc : Nat → Nat) (st : DevState) (cmdStr : List Char) :
    (interpret_RS485_command adc st cmdStr).2 =
      (interpret_core adc (if st.override_led = 0 then { st with greenled := 1 } else st)
        cmdStr).2 := rfl

lemma adc_lt (adc : Nat → Nat) (ch : Nat) : ADC_read adc ch < 100000 := by
  have : ADC_read adc ch < 65536 := Nat.mod_lt _ (by norm_num)
  omega

lemma natDigits_len5 (n : Nat) (h : n < 100000) : (natDigits n).length ≤ 5 :=
  natDigits_len 5 n (by norm_num; omega) (by norm_num)

lemma no_nul_strL {c : Char} {s : String}
    (hb : (strL s).all (fun x => x ≠ nulChar) = true) (hc : c ∈ strL s) : c ≠ nulChar := by
  have := List.all_eq_true.mp hb c hc
  simpa using this

lemma interpret_one_reply (adc : Nat → Nat) (st : DevState) (p : List Char)
    (hne : p ≠ []) (hnul : ∀ c ∈ p, c ≠ nulChar) :
    ∃ r, replies (interpret_RS485_command adc st p).2 = [r] ∧
      r.take 2 = ['/', '0'] ∧ ∃ u, r = u ++ ['#', '\n'] := by
  rw [interpret_snd]
  set st1 := if st.override_led = 0 then { st with greenled := 1 } else st with hst1
  by_cases hv : p.headD nulChar = 'v'
  · rw [core_v adc st1 p hv]
    exact ⟨_, rfl, by decide,
      strL "/0v 0.1 PIC18F16Q41 NPP-301 Characterizer", by decide⟩
  · by_cases hL : p.headD nulChar = 'L'
    · cases hT : firstTok sepTok (p.drop 1) with
      | none =>
        rw [core_L_none adc st1 p hL hT]
        exact ⟨_, rfl, by decide, strL "/0L error: no value", by decide⟩
      | some pr =>
        obtain ⟨tok, rest⟩ := pr
        rw [core_L_some adc st1 p tok rest hL hT]
        have h1 : 0 ≤ (atoi tok).emod 2 := Int.emod_nonneg _ (by norm_num)
        have h2 : (atoi tok).emod 2 < 2 := Int.emod_lt_of_pos _ (by norm_num)
        have hi : ((atoi tok).emod 2).toNat < 2 := by omega
        set i := ((atoi tok).emod 2).toNat with hidef
        clear_value i
        interval_cases i
        · exact ⟨_, rfl, by decide, strL "/0L 0", by decide⟩
        · exact ⟨_, rfl, by decide, strL "/0L 1", by decide⟩
    · by_cases ha : p.headD nulChar = 'a'
      · rw [core_a adc st1 p ha]
        have b1 := natDigits_len5 _ (adc_lt adc MY_ANC2)
        have b2 := natDigits_len5 _ (adc_lt adc MY_ANC7)
        have b3 := natDigits_len5 _ (adc_lt adc MY_ANB7)
        have b4 := natDigits_len5 _ (adc_lt adc MY_ANB6)
        have b5 := natDigits_len5 _ (adc_lt adc MY_ANB5)
        have l1 : (strL "/0a ").length = 4 := rfl
        have l2 : (strL " ").length = 1 := rfl
        have l3 : (strL "#\n").length = 2 := rfl
        have hr : emit (strL "/0a " ++ natDigits (ADC_read adc MY_ANC2) ++ strL " " ++
            natDigits (ADC_read adc MY_ANC7) ++ strL " " ++ natDigits (ADC_read adc MY_ANB7) ++
            strL " " ++ natDigits (ADC_read adc MY_ANB6) ++ strL " " ++
            natDigits (ADC_read adc MY_ANB5) ++ strL "#\n") =
            strL "/0a " ++ natDigits (ADC_read adc MY_ANC2) ++ strL " " ++
            natDigits (ADC_read adc MY_ANC7) ++ strL " " ++ natDigits (ADC_read adc MY_ANB7) ++
            strL " " ++ natDigits (ADC_read adc MY_ANB6) ++ strL " " ++
            natDigits (ADC_read adc MY_ANB5) ++ strL "#\n" := by
          apply emit_eq
          · simp only [List.length_append, NBUFB]
            omega
          · intro c hc
            simp only [List.mem_append] at hc
            rcases hc with ((((((((((hc | hc) | hc) | hc) | hc) | hc) | hc) | hc) | hc) | hc) | hc)
            · exact no_nul_strL (by decide) hc
            · exact natDigits_no_nul _ c hc
            · exact no_nul_strL (by decide) hc
            · exact natDigits_no_nul _ c hc
            · exact no_nul_strL (by decide) hc
            · exact natDigits_no_nul _ c hc
            · exact no_nul_strL (by decide) hc
            · exact natDigits_no_nul _ c hc
            · exact no_nul_strL (by decide) hc
            · exact natDigits_no_nul _ c hc
            · exact no_nul_strL (by decide) hc
        refine ⟨_, rfl, ?_, ?_⟩
        · rw [hr]
          rfl
        · refine ⟨strL "/0a " ++ natDigits (ADC_read adc MY_ANC2) ++ strL " " ++
            natDigits (ADC_read adc MY_ANC7) ++ strL " " ++ natDigits (ADC_read adc MY_ANB7) ++
            strL " " ++ natDigits (ADC_read adc MY_ANB6) ++ strL " " ++
            natDigits (ADC_read adc MY_ANB5), ?_⟩
          rw [hr]
          rw [show strL "#\n" = ['#', '\n'] from rfl]
      · by_cases hw : p.headD nulChar = 'w'
        · cases hT : firstTok sepTok (p.drop 1) with
          | none =>
            rw [core_w_none adc st1 p hw hT]
            exact ⟨_, rfl, by decide, strL "/0w error: missing level and on/off flag", by decide⟩
          | some pr =>
            obtain ⟨tok, rest⟩ := pr
            by_cases hf : (match firstTok sepTok rest with
                | some (tok2, _) => toInt8 (atoi tok2)
                | none => 1) = (0 : Int)
            · rw [core_w_off adc st1 p tok rest hw hT hf]
              exact ⟨_, rfl, by decide, strL "/0w VREF off", by decide⟩
            · rw [core_w_on adc st1 p tok rest hw hT hf]
              set lv := (if (if atoi tok > 255 then 255 else atoi tok) < 0 then 0
                else (if atoi tok > 255 then 255 else atoi tok)) with hlv
              have hlv0 : 0 ≤ lv := by rw [hlv]; split_ifs <;> omega
              have hlv255 : lv ≤ 255 := by rw [hlv]; split_ifs <;> omega
              have hdec : intDec lv = natDigits lv.toNat := by
                rw [intDec, if_neg (by omega)]
              have hdlen : (natDigits lv.toNat).length ≤ 5 :=
                natDigits_len5 _ (by omega)
              have l1 : (strL "/0w VREF on level=").length = 18 := rfl
              have l3 : (strL "#\n").length = 2 := rfl
              have hr : emit (strL "/0w VREF on level=" ++ intDec lv ++ strL "#\n") =
                  strL "/0w VREF on level=" ++ intDec lv ++ strL "#\n" := by
                apply emit_eq
                · rw [hdec]
                  simp only [List.length_append, NBUFB]
                  omega
                · rw [hdec]
                  intro c hc
                  simp only [List.mem_append] at hc
                  rcases hc with (hc | hc) | hc
                  · exact no_nul_strL (by decide) hc
                  · exact natDigits_no_nul _ c hc
                  · exact no_nul_strL (by decide) hc
              refine ⟨_, rfl, ?_, ?_⟩
              · rw [hr]
                rfl
              · refine ⟨strL "/0w VREF on level=" ++ intDec lv, ?_⟩
                rw [hr]
                rw [show strL "#\n" = ['#', '\n'] from rfl]
        · rw [core_default adc st1 p hv hL ha hw]
          have hc0 : p.headD nulChar ≠ nulChar := by
            cases p with
            | nil => exact absurd rfl hne
            | cons c0 rest => exact hnul c0 (List.mem_cons_self _ _)
          have hr : emit ('/' :: '0' :: p.headD nulChar :: strL " error: Unknown command#\n") =
              '/' :: '0' :: p.headD nulChar :: strL " error: Unknown command#\n" := by
            apply emit_eq
            · have l1 : (strL " error: Unknown command#\n").length = 25 := rfl
              simp only [List.length_cons, NBUFB]
              omega
            · intro c hc
              simp only [List.mem_cons] at hc
              rcases hc with rfl | rfl | rfl | hc
              · decide
              · decide
              · exact hc0
              · exact no_nul_strL (by decide) hc
          refine ⟨_, rfl, ?_, ?_⟩
          · rw [hr]
            rfl
          · refine ⟨'/' :: '0' :: p.headD nulChar :: strL " error: Unknown command", ?_⟩
            rw [hr]
            rw [show strL " error: Unknown command#\n" =
              strL " error: Unknown command" ++ ['#', '\n'] from rfl]
            simp

lemma digitsValue_head_not_digit (s : List Char)
    (h : (s.headD nulChar).isDigit = false) : digitsValue s 0 = 0 := by
  cases s with
  | nil => rfl
  | cons c rest =>
    simp only [List.headD_cons] at h
    simp only [digitsValue]
    rw [if_neg (by simp [h])]

lemma atoi_nonNumeric (tok : List Char) (h : nonNumeric tok = true) : atoi tok = 0 := by
  simp only [nonNumeric] at h
  unfold atoi atoiRaw
  by_cases hminus : (tok.dropWhile isSpaceC).headD nulChar = '-'
  · rw [if_pos hminus]
    rw [if_pos (Or.inl hminus)] at h
    rw [digitsValue_head_not_digit _ (by simpa using h)]
    decide
  · rw [if_neg hminus]
    by_cases hplus : (tok.dropWhile isSpaceC).headD nulChar = '+'
    · rw [if_pos hplus]
      rw [if_pos (Or.inr hplus)] at h
      rw [digitsValue_head_not_digit _ (by simpa using h)]
      decide
    · rw [if_neg hplus]
      rw [if_neg (by tauto)] at h
      rw [digitsValue_head_not_digit _ (by simpa using h)]
      decide

lemma process_line_eq (adc : Nat → Nat) (st : DevState) (buf : List Char) :
    process_line adc st buf =
      (match trim_spec buf 80 with
        | none => (st, [])
        | some [] => (st, [])
        | some cmd => interpret_RS485_command adc st cmd) := by
  simp only [process_line, NBUFA, trim_eq_spec buf 80]

lemma process_line_none (adc : Nat → Nat) (st : DevState) (buf : List Char)
    (h : trim_spec buf 80 = none) : process_line adc st buf = (st, []) := by
  rw [process_line_eq, h]

lemma process_line_nil (adc : Nat → Nat) (st : DevState) (buf : List Char)
    (h : trim_spec buf 80 = some []) : process_line adc st buf = (st, []) := by
  rw [process_line_eq, h]

lemma process_line_cmd (adc : Nat → Nat) (st : DevState) (buf : List Char)
    (c : Char) (cs : List Char) (h : trim_spec buf 80 = some (c :: cs)) :
    process_line adc st buf = interpret_RS485_command adc st (c :: cs) := by
  rw [process_line_eq, h]

lemma findIdxO_bang_append (a : List Char) (h : '!' ∉ a) :
    findIdxO (fun b => b = '!') (a ++ ['!']) = some a.length := by
  induction a with
  | nil => simp [findIdxO]
  | cons c a' ih =>
    have hc : c ≠ '!' := fun hh => h (by simp [hh])
    simp only [List.cons_append, findIdxO]
    rw [if_neg (by simpa using hc), List.append_eq,
      ih (fun hh => h (List.mem_cons_of_mem _ hh))]
    rfl

/-- C1: for every input buffer of at most 80 bytes, `trim_RS485_command`
(called by `main` with `nbytes = NBUFA = 80`) implements the spec's
four-step Frame Extractor algorithm `trim_spec`: no frame when no `'/'` is
present, no frame when no `'!'` occurs at or after the first `'/'`, no frame
when the byte after the first `'/'` differs from the node identity, and
otherwise exactly the bytes strictly between the target-id byte and the
first `'!'` (possibly empty); both scans stop at an embedded NUL byte, which
`trim_spec` expresses by restricting to the effective (NUL-truncated)
buffer. -/
theorem C1_trim_implements_spec (buf : List Char) (_h : buf.length ≤ 80) :
    trim_RS485_command buf 80 = trim_spec buf 80 :=
  trim_eq_spec buf 80

theorem C1_trim_implements_spec_witness :
    (strL "xx/Nabc def!junk").length ≤ 80 ∧
      trim_RS485_command (strL "xx/Nabc def!junk") 80 =
        trim_spec (strL "xx/Nabc def!junk") 80 :=
  ⟨by decide, C1_trim_implements_spec (strL "xx/Nabc def!junk") (by decide)⟩

/-- C2: a received line that is malformed (no `'/'`, or no `'!'` at or after
the first `'/'`, in the effective NUL-truncated buffer) or that is addressed
to a foreign node produces no reply — the poll-loop iteration transmits
nothing (`uart1_putstr` is never reached), performs no other effect, leaves
the state unchanged, and (being a total function) proceeds to the next line
without faulting. -/
theorem C2_silent_on_malformed_or_foreign (adc : Nat → Nat) (st : DevState)
    (buf : List Char)
    (h : findIdxO (fun b => b = '/') ((buf.take 80).takeWhile (fun b => b ≠ nulChar)) = none
      ∨ (∃ s, findIdxO (fun b => b = '/')
            ((buf.take 80).takeWhile (fun b => b ≠ nulChar)) = some s
          ∧ findIdxO (fun b => b = '!')
              (((buf.take 80).takeWhile (fun b => b ≠ nulChar)).drop s) = none)
      ∨ (∃ s, findIdxO (fun b => b = '/')
            ((buf.take 80).takeWhile (fun b => b ≠ nulChar)) = some s
          ∧ ((buf.take 80).takeWhile (fun b => b ≠ nulChar)).getD (s + 1) nulChar ≠ MYID)) :
    process_line adc st buf = (st, []) := by
  apply process_line_none
  simp only [trim_spec]
  rcases h with h | ⟨s, hs, h2⟩ | ⟨s, hs, h3⟩
  · rw [h, Option.none_bind]
  · rw [hs, Option.some_bind, h2, Option.none_bind]
  · rw [hs, Option.some_bind]
    cases hj : findIdxO (fun b => b = '!')
        (((buf.take 80).takeWhile (fun b => b ≠ nulChar)).drop s) with
    | none => rw [Option.none_bind]
    | some j =>
      rw [Option.some_bind, if_neg h3]

theorem C2_silent_on_malformed_or_foreign_witness :
    process_line (fun _ => 0) { greenled := 0, override_led := 0 }
      (strL "garbage no delimiters") = ({ greenled := 0, override_led := 0 }, []) :=
  C2_silent_on_malformed_or_foreign _ _ _ (Or.inl (by decide))

/-- C6 counterexample: the round trip fails as stated when the payload
itself contains `'!'`: framing payload `"!"` for identity `'N'` gives the
wire bytes `"/N!!"`, and the extractor returns the empty payload (the first
`'!'` terminates the frame), not the original payload. -/
theorem C6_roundtrip_counterexample :
    trim_RS485_command ('/' :: MYID :: ['!'] ++ ['!']) 4 = some [] ∧
      trim_RS485_command ('/' :: MYID :: ['!'] ++ ['!']) 4 ≠ some ['!'] := by
  constructor
  · decide
  · decide

/-- C6 (amended): the round trip holds for every payload that contains
neither the end delimiter `'!'` nor the NUL byte: framing it as
`'/' ++ 'N' ++ a ++ '!'` and extracting with `nbytes` equal to the frame
length returns exactly `a`. -/
theorem C6_roundtrip_amended (a : List Char) (h1 : '!' ∉ a) (h2 : nulChar ∉ a) :
    trim_RS485_command ('/' :: MYID :: a ++ ['!']) ((a.length : Int) + 3) = some a := by
  have hn : ((a.length : Int) + 3) = (((a.length + 3 : Nat)) : Int) := by push_cast; ring
  rw [hn, trim_eq_spec]
  simp only [trim_spec]
  have hnotin : nulChar ∉ '/' :: MYID :: a ++ ['!'] := by
    intro hmem
    rcases List.mem_cons.mp hmem with hcase | hmem2
    · exact (by decide : nulChar ≠ '/') hcase
    rcases List.mem_cons.mp hmem2 with hcase | hmem3
    · exact (by decide : nulChar ≠ MYID) hcase
    rcases List.mem_append.mp hmem3 with hcase | hcase
    · exact h2 hcase
    · exact (by decide : nulChar ≠ '!') (List.mem_singleton.mp hcase)
  have heff : (('/' :: MYID :: a ++ ['!']).take (a.length + 3)).takeWhile
      (fun b => b ≠ nulChar) = '/' :: MYID :: a ++ ['!'] := by
    rw [List.take_of_length_le (by simp)]
    rw [List.takeWhile_eq_self_iff.mpr]
    intro x hx
    simp only [ne_eq, decide_eq_true_eq]
    intro hxn
    subst hxn
    exact hnotin hx
  rw [heff]
  have hslash : findIdxO (fun b => b = '/') ('/' :: MYID :: a ++ ['!']) = some 0 := by
    simp [findIdxO]
  rw [hslash, Option.some_bind, List.drop_zero]
  have hbang : findIdxO (fun b => b = '!') ('/' :: MYID :: a ++ ['!'])
      = some (a.length + 2) := by
    simp only [findIdxO]
    rw [if_neg (by decide), if_neg (by decide), List.append_eq, findIdxO_bang_append a h1]
    rfl
  rw [hbang, Option.some_bind]
  rw [if_pos (show ('/' :: MYID :: a ++ ['!']).getD (0 + 1) nulChar = MYID from rfl)]
  have htake : ('/' :: MYID :: a ++ ['!']).take (0 + (a.length + 2)) = '/' :: MYID :: a := by
    rw [Nat.zero_add]
    show '/' :: MYID :: (a ++ ['!']).take a.length = '/' :: MYID :: a
    rw [List.take_left]
  rw [htake]
  rfl

theorem C6_roundtrip_amended_witness :
    '!' ∉ (strL "w 128, 1") ∧ nulChar ∉ (strL "w 128, 1") ∧
      trim_RS485_command ('/' :: MYID :: (strL "w 128, 1") ++ ['!'])
        (((strL "w 128, 1").length : Int) + 3) = some (strL "w 128, 1") :=
  ⟨by decide, by decide, C6_roundtrip_amended (strL "w 128, 1") (by decide) (by decide)⟩

set_option maxRecDepth 8000 in
/-- C7 counterexample: the Response Framer (the `snprintf(bufB, NBUFB, ...)`
plus `uart1_putstr` pattern of every reply site, wrapping a body as
`"/0" ++ body ++ "#\n"`) does not preserve the closing `"#\n"` when the
framed text exceeds the buffer: `snprintf` truncates the tail, so for a
300-byte body the transmitted frame does not end with `"#\n"`. -/
theorem C7_framer_counterexample :
    ¬ ∃ u, frame_reply (List.replicate 300 'x') = u ++ ['#', '\n'] := by
  intro hex
  obtain ⟨u, hu⟩ := hex
  have hlen : (frame_reply (List.replicate 300 'x')).length = 267 := by decide
  have hlast : (frame_reply (List.replicate 300 'x')).getD 266 nulChar = 'x' := by decide
  rw [hu, List.length_append] at hlen
  have hul : u.length = 265 := by simpa using hlen
  rw [hu, List.getD_append_right _ _ _ _ (by omega), hul] at hlast
  exact absurd hlast (by decide)

/-- C7 (amended): the Response Framer transmits at most 268 bytes for every
body; whenever the framed text fits the outbound buffer (body of at most
263 NUL-free bytes, so that `"/0" ++ body ++ "#\n"` is within the 267
characters `snprintf` can store), the frame is emitted intact and ends with
`"#\n"`.  Truncation of an overflowing frame cuts the tail, dropping the
closing markers (see the counterexample); every reply the firmware actually
formats is far below the limit. -/
theorem C7_framer_amended (body : List Char) :
    (frame_reply body).length ≤ 268 ∧
      (body.length ≤ 263 → (∀ c ∈ body, c ≠ nulChar) →
        frame_reply body = '/' :: '0' :: body ++ ['#', '\n']) := by
  constructor
  · have h1 := emit_len ('/' :: '0' :: (body ++ strL "#\n"))
    have h2 : NBUFB = 268 := rfl
    unfold frame_reply
    omega
  · intro hlen hnul
    unfold frame_reply
    rw [emit_eq]
    · rw [show strL "#\n" = ['#', '\n'] from rfl]
      rfl
    · have h3 : (strL "#\n").length = 2 := rfl
      simp only [List.length_cons, List.length_append, NBUFB]
      omega
    · intro c hc
      simp only [List.mem_cons, List.mem_append] at hc
      rcases hc with rfl | rfl | hc | hc
      · decide
      · decide
      · exact hnul c hc
      · exact no_nul_strL (by decide) hc

theorem C7_framer_amended_witness :
    (frame_reply (strL "v OK")).length ≤ 268 ∧
      frame_reply (strL "v OK") = '/' :: '0' :: strL "v OK" ++ ['#', '\n'] :=
  ⟨(C7_framer_amended (strL "v OK")).1,
   (C7_framer_amended (strL "v OK")).2 (by decide) (by decide)⟩

/-- C9: the LED invariant — starting from the reset state
(`GREENLED = 0`, `override_led = 0`, as left by `init_pins` and the
start-up blink), after every completed `interpret_RS485_command` call the
LED output equals the override flag: handlers that blink the LED as an
activity indicator restore it, and the `L` handler sets both to the same
bit. -/
theorem C9_led_equals_override (adc : Nat → Nat) (cmds : List (List Char)) :
    (run adc cmds).greenled = (run adc cmds).override_led :=
  run_inv adc cmds

/-- C3 counterexample: `"/N!"` is a valid frame addressed to this node
(first `'/'`, then the identity `'N'`, then a later `'!'`), as the
extractor's acceptance (`some []`) records — yet the poll loop transmits
nothing for it, because `main` skips dispatch when the extracted command
string is empty.  So it is not the case that every valid addressed frame
gets exactly one reply. -/
theorem C3_counterexample_empty_payload :
    trim_spec (strL "/N!") 80 = some [] ∧
      (process_line (fun _ => 0) { greenled := 0, override_led := 0 } (strL "/N!")).2 = [] := by
  constructor
  · decide
  · decide

/-- C3 (amended): for every valid frame addressed to this node whose
payload is non-empty, exactly one reply is transmitted for that frame, and
that reply begins with the two characters `"/0"` and ends with `'#'`
followed by the line terminator.  (The unamended claim fails only for the
empty payload, which the poll loop deliberately does not dispatch.) -/
theorem C3_one_reply_per_frame (adc : Nat → Nat) (st : DevState) (buf p : List Char)
    (h : trim_spec buf 80 = some p) (hne : p ≠ []) :
    ∃ r, replies (process_line adc st buf).2 = [r] ∧
      r.take 2 = ['/', '0'] ∧ ∃ u, r = u ++ ['#', '\n'] := by
  cases p with
  | nil => exact absurd rfl hne
  | cons c cs =>
    rw [process_line_cmd adc st buf c cs h]
    exact interpret_one_reply adc st (c :: cs) hne (trim_spec_no_nul buf 80 _ h)

theorem C3_one_reply_per_frame_witness :
    ∃ r, replies (process_line (fun _ => 0) { greenled := 0, override_led := 0 }
        (strL "/Nv!")).2 = [r] ∧
      r.take 2 = ['/', '0'] ∧ ∃ u, r = u ++ ['#', '\n'] :=
  C3_one_reply_per_frame (fun _ => 0) { greenled := 0, override_led := 0 }
    (strL "/Nv!") ['v'] (by decide) (by decide)

/-- C4: a non-empty extracted payload whose first byte is not one of the
mapped command characters `'v'`, `'L'`, `'a'`, `'w'` falls to the
`default` case of the dispatcher, which transmits exactly
`"/0" ++ <first byte> ++ " error: Unknown command#\n"`; in particular the
input line `"/Nz!"` yields exactly the reply
`"/0z error: Unknown command#\n"`. -/
theorem C4_unknown_command :
    (∀ (adc : Nat → Nat) (st : DevState) (buf : List Char) (c : Char) (cs : List Char),
      trim_spec buf 80 = some (c :: cs) → c ∉ (['v', 'L', 'a', 'w'] : List Char) →
      replies (process_line adc st buf).2 =
        [('/' :: '0' :: c :: strL " error: Unknown command#\n")]) ∧
    (∀ (adc : Nat → Nat) (st : DevState),
      replies (process_line adc st (strL "/Nz!")).2 =
        [strL "/0z error: Unknown command#\n"]) := by
  constructor
  · intro adc st buf c cs h hc
    simp only [List.mem_cons, List.not_mem_nil, or_false, not_or] at hc
    obtain ⟨h1, h2, h3, h4⟩ := hc
    rw [process_line_cmd adc st buf c cs h, interpret_snd]
    rw [core_default adc _ (c :: cs) (by simpa using h1) (by simpa using h2)
      (by simpa using h3) (by simpa using h4)]
    have hcnul : c ≠ nulChar := trim_spec_no_nul buf 80 _ h c (List.mem_cons_self _ _)
    have hr : emit ('/' :: '0' :: c :: strL " error: Unknown command#\n") =
        '/' :: '0' :: c :: strL " error: Unknown command#\n" := by
      apply emit_eq
      · have l1 : (strL " error: Unknown command#\n").length = 25 := rfl
        simp only [List.length_cons, NBUFB]
        omega
      · intro x hx
        simp only [List.mem_cons] at hx
        rcases hx with rfl | rfl | rfl | hx
        · decide
        · decide
        · exact hcnul
        · exact no_nul_strL (by decide) hx
    rw [show (c :: cs).headD nulChar = c from rfl, hr]
    rfl
  · intro adc st
    have h : trim_spec (strL "/Nz!") 80 = some ['z'] := by decide
    rw [process_line_cmd adc st _ 'z' [] h, interpret_snd]
    rw [core_default adc _ ['z'] (by decide) (by decide) (by decide) (by decide)]
    show replies [Effect.putstr (emit ('/' :: '0' :: (['z'] : List Char).headD nulChar ::
      strL " error: Unknown command#\n"))] = [strL "/0z error: Unknown command#\n"]
    decide

theorem C4_unknown_command_witness :
    replies (process_line (fun _ => 0) { greenled := 0, override_led := 0 }
        (strL "/Nq!")).2 = [('/' :: '0' :: 'q' :: strL " error: Unknown command#\n")] :=
  C4_unknown_command.1 (fun _ => 0) { greenled := 0, override_led := 0 }
    (strL "/Nq!") 'q' [] (by decide) (by decide)

/-- C5: an `'L'` or `'w'` command whose payload carries no argument token
(`strtok` finds only separators or nothing after the command byte) makes
the handler transmit a single reply containing the literal substring
"error" and perform no operation: for device states arising in a run of the
firmware (`run adc cmds`, which always satisfies the LED invariant), the
`'L'` handler leaves `GREENLED` and `override_led` exactly as they were,
and the `'w'` handler's effect trace is just the error reply — neither
`set_VREF_on` nor `set_VREF_off` is called. -/
theorem C5_missing_argument_error (adc : Nat → Nat) (cmds : List (List Char))
    (rest : List Char) (hno : firstTok sepTok rest = none) :
    ((interpret_RS485_command adc (run adc cmds) ('L' :: rest)).1 = run adc cmds
      ∧ (interpret_RS485_command adc (run adc cmds) ('L' :: rest)).2 =
          [Effect.putstr (strL "/0L error: no value#\n")]
      ∧ hasErr (strL "/0L error: no value#\n"))
    ∧ ((interpret_RS485_command adc (run adc cmds) ('w' :: rest)).1 = run adc cmds
      ∧ (interpret_RS485_command adc (run adc cmds) ('w' :: rest)).2 =
          [Effect.putstr (strL "/0w error: missing level and on/off flag#\n")]
      ∧ hasErr (strL "/0w error: missing level and on/off flag#\n")) := by
  have hinv := run_inv adc cmds
  have hcoreL : ∀ s : DevState, interpret_core adc s ('L' :: rest) =
      (s, [Effect.putstr (strL "/0L error: no value#\n")]) := by
    intro s
    rw [core_L_none adc s ('L' :: rest) rfl hno,
      show emit (strL "/0L error: no value#\n") = strL "/0L error: no value#\n" by decide]
  have hcorew : ∀ s : DevState, interpret_core adc s ('w' :: rest) =
      (s, [Effect.putstr (strL "/0w error: missing level and on/off flag#\n")]) := by
    intro s
    rw [core_w_none adc s ('w' :: rest) rfl hno,
      show emit (strL "/0w error: missing level and on/off flag#\n") =
        strL "/0w error: missing level and on/off flag#\n" by decide]
  have hL := interpret_of_core_state adc (run adc cmds) ('L' :: rest) _ hinv hcoreL
  have hw := interpret_of_core_state adc (run adc cmds) ('w' :: rest) _ hinv hcorew
  refine ⟨⟨?_, ?_, ?_⟩, ?_, ?_, ?_⟩
  · rw [hL]
  · rw [hL]
  · exact ⟨strL "/0L ", strL ": no value#\n", by decide⟩
  · rw [hw]
  · rw [hw]
  · exact ⟨strL "/0w ", strL ": missing level and on/off flag#\n", by decide⟩

theorem C5_missing_argument_error_witness :
    (interpret_RS485_command (fun _ => 0) (run (fun _ => 0) []) ['L']).1 =
        run (fun _ => 0) [] ∧
      (interpret_RS485_command (fun _ => 0) (run (fun _ => 0) []) ['w']).2 =
        [Effect.putstr (strL "/0w error: missing level and on/off flag#\n")] ∧
      hasErr (strL "/0L error: no value#\n") :=
  ⟨(C5_missing_argument_error (fun _ => 0) [] [] (by decide)).1.1,
   (C5_missing_argument_error (fun _ => 0) [] [] (by decide)).2.2.1,
   (C5_missing_argument_error (fun _ => 0) [] [] (by decide)).1.2.2⟩

/-- C8: argument tokens are converted with best-effort `atoi`, which yields
0 on non-numeric input instead of an error: an `'L'` command whose first
token has no leading digits (after optional whitespace and sign) turns the
LED off — the final state is `GREENLED = 0`, `override_led = 0` — and
transmits exactly `"/0L 0#\n"`, which does not contain "error". -/
theorem C8_nonnumeric_token_is_zero (adc : Nat → Nat) (st : DevState)
    (tail tok rest : List Char)
    (hT : firstTok sepTok tail = some (tok, rest))
    (hnn : nonNumeric tok = true) :
    (interpret_RS485_command adc st ('L' :: tail)).1 =
        { greenled := 0, override_led := 0 } ∧
      (interpret_RS485_command adc st ('L' :: tail)).2 =
        [Effect.putstr (strL "/0L 0#\n")] ∧
      ¬ hasErr (strL "/0L 0#\n") := by
  have hz : atoi tok = 0 := atoi_nonNumeric tok hnn
  have hcore : ∀ s : DevState, interpret_core adc s ('L' :: tail) =
      ({ greenled := 0, override_led := 0 }, [Effect.putstr (strL "/0L 0#\n")]) := by
    intro s
    rw [core_L_some adc s ('L' :: tail) tok rest rfl hT, hz]
    decide
  refine ⟨?_, ?_, ?_⟩
  · simp only [interpret_RS485_command, hcore]
    rfl
  · rw [interpret_snd, hcore]
  · intro hErr
    have hmem := hasErr_mem_r _ hErr
    exact absurd hmem (by decide)

theorem C8_nonnumeric_token_is_zero_witness :
    (interpret_RS485_command (fun _ => 0) { greenled := 1, override_led := 1 }
        ('L' :: strL " x")).1 = { greenled := 0, override_led := 0 } ∧
      (interpret_RS485_command (fun _ => 0) { greenled := 1, override_led := 1 }
        ('L' :: strL " x")).2 = [Effect.putstr (strL "/0L 0#\n")] ∧
      ¬ hasErr (strL "/0L 0#\n") :=
  C8_nonnumeric_token_is_zero (fun _ => 0) { greenled := 1, override_led := 1 }
    (strL " x") (strL "x") [] (by decide) (by decide)

/-- C10: for a `'w'` command with a level token and an enabled on/off flag
(either absent, defaulting to 1, or parsing to a nonzero `int8_t`), an
out-of-range level is clamped rather than rejected: `set_VREF_on` is called
with `clamp(level, 0, 255)` (so the `uint8_t` cast never truncates), the
reply reports the clamped level, and the reply never contains "error". -/
theorem C10_w_level_clamped (adc : Nat → Nat) (st : DevState)
    (tail tok rest : List Char)
    (hT : firstTok sepTok tail = some (tok, rest))
    (_hnum : nonNumeric tok = false)
    (hf : (match firstTok sepTok rest with
        | some (tok2, _) => toInt8 (atoi tok2)
        | none => 1) ≠ (0 : Int)) :
    (interpret_RS485_command adc st ('w' :: tail)).2 =
      [Effect.vrefOn (max 0 (min (atoi tok) 255)).toNat,
       Effect.putstr (strL "/0w VREF on level=" ++
         natDigits (max 0 (min (atoi tok) 255)).toNat ++ strL "#\n")] ∧
    (max 0 (min (atoi tok) 255)).toNat ≤ 255 ∧
    ¬ hasErr (strL "/0w VREF on level=" ++
        natDigits (max 0 (min (atoi tok) 255)).toNat ++ strL "#\n") := by
  have hclamp : (if (if atoi tok > 255 then 255 else atoi tok) < 0 then 0
      else (if atoi tok > 255 then 255 else atoi tok)) = max 0 (min (atoi tok) 255) := by
    split_ifs <;> omega
  have h255 : (max 0 (min (atoi tok) 255)).toNat ≤ 255 := by omega
  have h0 : (0 : Int) ≤ max 0 (min (atoi tok) 255) := by omega
  have hcast : uint8OfInt (max 0 (min (atoi tok) 255)) =
      (max 0 (min (atoi tok) 255)).toNat := by
    show ((max 0 (min (atoi tok) 255)).emod 256).toNat = (max 0 (min (atoi tok) 255)).toNat
    rw [show (max 0 (min (atoi tok) 255)).emod 256 =
      max 0 (min (atoi tok) 255) % 256 from rfl]
    rw [Int.emod_eq_of_lt h0 (by omega)]
  have hdec : intDec (max 0 (min (atoi tok) 255)) =
      natDigits (max 0 (min (atoi tok) 255)).toNat := by
    rw [intDec, if_neg (by omega)]
  have hdlen : (natDigits (max 0 (min (atoi tok) 255)).toNat).length ≤ 5 :=
    natDigits_len5 _ (by omega)
  have hr : emit (strL "/0w VREF on level=" ++
      natDigits (max 0 (min (atoi tok) 255)).toNat ++ strL "#\n") =
      strL "/0w VREF on level=" ++
        natDigits (max 0 (min (atoi tok) 255)).toNat ++ strL "#\n" := by
    apply emit_eq
    · have l1 : (strL "/0w VREF on level=").length = 18 := rfl
      have l3 : (strL "#\n").length = 2 := rfl
      simp only [List.length_append, NBUFB]
      omega
    · intro c hc
      simp only [List.mem_append] at hc
      rcases hc with (hc | hc) | hc
      · exact no_nul_strL (by decide) hc
      · exact natDigits_no_nul _ c hc
      · exact no_nul_strL (by decide) hc
  refine ⟨?_, h255, ?_⟩
  · rw [interpret_snd, core_w_on adc _ ('w' :: tail) tok rest rfl hT hf, hclamp,
      hcast, hdec, hr]
  · intro hErr
    have hmem := hasErr_mem_r _ hErr
    simp only [List.mem_append] at hmem
    rcases hmem with (hc | hc) | hc
    · exact absurd hc (by decide)
    · exact natDigits_no_r _ hc
    · exact absurd hc (by decide)

theorem C10_w_level_clamped_witness :
    (interpret_RS485_command (fun _ => 0) { greenled := 0, override_led := 0 }
        ('w' :: strL "300")).2 =
      [Effect.vrefOn 255, Effect.putstr (strL "/0w VREF on level=255#\n")] := by
  have h := (C10_w_level_clamped (fun _ => 0) { greenled := 0, override_led := 0 }
      (strL "300") (strL "300") [] (by decide) (by decide) (by decide)).1
  rw [h]
  decide

end NPP301
